import Mathlib

/-!
Shallow embedding of `src/Native/VsChromiumNative.cpp` (vs-chromium native
search kernel) and verification of the specification claims about it.

Byte buffers (`const char*` + length, read through `uint8_t`) and
wide-character buffers (`const wchar_t*` + length) are both modelled as
`List Nat` of character values; C `int` parameters that the code clamps or
that may be negative are modelled as `Int`.
-/

namespace VsChromiumNative

/-! ### TextKind classification (`Text_GetKind`, lines 165-209) -/

/-- The `TextKind` enumeration (lines 165-170). -/
inductive TextKind where
  | Ascii
  | AsciiWithUtf8Bom
  | Utf8WithBom
  | Unknown
  deriving DecidableEq, Repr

/-- Function `Text_HasUtf8Bom` (lines 174-179): the buffer has length at least 3 and
starts with the bytes `0xEF 0xBB 0xBF`. -/
def Text_HasUtf8Bom (text : List Nat) : Bool :=
  match text with
  | b0 :: b1 :: b2 :: _ => b0 == 0xEF && b1 == 0xBB && b2 == 0xBF
  | _ => false

/-- Function `Text_IsAscii` (lines 181-190): every byte is at most `0x7f`. -/
def Text_IsAscii (text : List Nat) : Bool :=
  match text with
  | [] => true
  | b :: rest => !(0x7f < b) && Text_IsAscii rest

/-- Function `Text_GetKind` (lines 194-209). -/
def Text_GetKind (text : List Nat) : TextKind :=
  if Text_HasUtf8Bom text then
    if Text_IsAscii (text.drop 3) then .AsciiWithUtf8Bom else .Utf8WithBom
  else
    if Text_IsAscii text then .Ascii else .Unknown

/-! ### Byte-buffer equality (`Ascii_Compare`, lines 211-220) -/

/-- Result of `memcmp(text1, text2, n) == 0` for two buffers both of length `n`:
pairwise equality of the byte sequences. -/
def memcmpEqual : List Nat → List Nat → Bool
  | [], [] => true
  | a :: as, b :: bs => a == b && memcmpEqual as bs
  | _, _ => false

/-- Function `Ascii_Compare` (lines 211-220): `false` when the lengths differ,
otherwise `memcmp == 0`. -/
def Ascii_Compare (text1 text2 : List Nat) : Bool :=
  if text1.length ≠ text2.length then false
  else memcmpEqual text1 text2

/-! ### Spec-side formulations (written from the claims, to be compared
against the code embedding above) -/

/-- Spec-side: the buffer starts with the 3-byte prefix `0xEF 0xBB 0xBF`. -/
def SpecStartsWithBom (text : List Nat) : Prop :=
  3 ≤ text.length ∧ text.take 3 = [0xEF, 0xBB, 0xBF]

/-- Spec-side: every byte of the buffer is at most `0x7F`. -/
def SpecAllAscii (text : List Nat) : Prop :=
  ∀ b ∈ text, b ≤ 0x7F

instance (text : List Nat) : Decidable (SpecStartsWithBom text) := by
  unfold SpecStartsWithBom; infer_instance

instance (text : List Nat) : Decidable (SpecAllAscii text) := by
  unfold SpecAllAscii; infer_instance

/-! ### Line extent extraction (`GetLineExtentFromPosition`, lines 25-63)

The C template reads characters through raw pointers.  The embedding reads
through `readChar`, which returns `none` exactly when the C code would
dereference outside `[text, text + textLen)`; any such out-of-range read
makes the whole embedded function return `none`. -/

/-- Read the character at (possibly negative) index `i`; `none` iff the
index is outside `[0, textLen)`, i.e. iff the C code reads out of bounds. -/
def readChar (text : List Nat) (i : Int) : Option Nat :=
  if i < 0 then none else text[i.toNat]?

/-- The backward loop body (lines 39-44): `fuel` counts the remaining
iterations `start - low`, kept in lockstep with `start`. -/
def scanBackAux (text : List Nat) : Nat → Int → Option Int
  | 0, start => some start
  | fuel + 1, start =>
    match readChar text start with
    | none => none
    | some c => if c = 10 then some start else scanBackAux text fuel (start - 1)

/-- Loop `for (start = current; start > low; start--) if (*start == nl) break;` -/
def scanBack (text : List Nat) (low start : Int) : Option Int :=
  if start ≤ low then some start
  else scanBackAux text (start - low).toNat start

/-- The forward loop body (lines 47-52): `fuel` counts the remaining
iterations `high - e`. -/
def scanFwdAux (text : List Nat) : Nat → Int → Option Int
  | 0, e => some e
  | fuel + 1, e =>
    match readChar text e with
    | none => none
    | some c => if c = 10 then some e else scanFwdAux text fuel (e + 1)

/-- Loop `for (end = current; end < high; end++) if (*end == nl) break;` -/
def scanFwd (text : List Nat) (high e : Int) : Option Int :=
  if high ≤ e then some e
  else scanFwdAux text (high - e).toNat e

/-- Template `GetLineExtentFromPosition` (lines 25-63): clamps `position - maxOffset`
to the start of the buffer and `position + maxOffset` to its end, scans
backward then forward for a newline, and returns
`(lineStartPosition, lineLen)`.  `none` means the C code performed an
out-of-bounds read (undefined behavior). -/
def GetLineExtentFromPosition (text : List Nat) (position maxOffset : Int) :
    Option (Int × Int) :=
  let low := max 0 (position - maxOffset)
  let high := min (text.length : Int) (position + maxOffset)
  match scanBack text low position with
  | none => none
  | some start =>
    match scanFwd text high position with
    | none => none
    | some e => some (start, e - start)

/-- Export `Ascii_GetLineExtentFromPosition` (lines 222-231) instantiates the
template at `char`. -/
def Ascii_GetLineExtentFromPosition (text : List Nat) (position maxOffset : Int) :
    Option (Int × Int) :=
  GetLineExtentFromPosition text position maxOffset

/-- Export `Utf16_GetLineExtentFromPosition` (lines 249-258) instantiates the
template at `wchar_t`. -/
def Utf16_GetLineExtentFromPosition (text : List Nat) (position maxOffset : Int) :
    Option (Int × Int) :=
  GetLineExtentFromPosition text position maxOffset

/-! ### Wide-character search (`Utf16_Search`, lines 233-247) -/

/-- Comparator `char_equal` (lines 77-82): plain equality. -/
def char_equal (c1 c2 : Nat) : Bool := c1 == c2

/-- Comparator `char_equal_icase` (lines 65-75): equality of the images
under `std::toupper` over the default locale.  Modelled from the spec: the
locale's uppercase table is not part of this repository, so it is abstracted
as an arbitrary fixed per-character map `up`. -/
def char_equal_icase (up : Nat → Nat) (c1 c2 : Nat) : Bool := up c1 == up c2

/-- One match attempt of `std::search`: the pattern matches at the head of
`text` under `eq` (the whole pattern must fit before `textEnd`). -/
def matchesAt (eq : Nat → Nat → Bool) : List Nat → List Nat → Bool
  | _, [] => true
  | [], _ :: _ => false
  | t :: ts, p :: ps => eq t p && matchesAt eq ts ps

/-- Call `std::search(text, textEnd, pattern, patternEnd, eq)`, expressed as
an offset into `text`: the first offset at which the pattern matches, and
`text.length` (i.e. `textEnd`) when there is none; the empty pattern matches
at offset 0. -/
def stdSearch (eq : Nat → Nat → Bool) : List Nat → List Nat → Nat
  | [], _ => 0
  | t :: ts, pattern =>
    if matchesAt eq (t :: ts) pattern then 0 else 1 + stdSearch eq ts pattern

/-- Export `Utf16_Search` (lines 233-247): `std::search` with `char_equal`
when `kMatchCase` is set in the options and `char_equal_icase` otherwise;
the returned pointer becomes `none` (`nullptr`) when it equals `textEnd`
and the match offset otherwise.  `options & kMatchCase` is modelled as the
Bool `matchCase`. -/
def Utf16_Search (up : Nat → Nat) (matchCase : Bool) (text pattern : List Nat) :
    Option Nat :=
  let idx :=
    if matchCase then stdSearch char_equal text pattern
    else stdSearch (char_equal_icase up) text pattern
  if idx = text.length then none else some idx

/-! ### Search-algorithm creation (`AsciiSearchAlgorithm_Create`,
lines 86-143) -/

/-- The raw C value of `kStrStr` in `SearchAlgorithmKind` (lines 86-93). -/
def kStrStr : Int := 1

/-- The raw C value of `kBndm32`. -/
def kBndm32 : Int := 2

/-- The raw C value of `kBndm64`. -/
def kBndm64 : Int := 3

/-- The raw C value of `kBoyerMoore`. -/
def kBoyerMoore : Int := 4

/-- The raw C value of `kRegex`. -/
def kRegex : Int := 5

/-- The raw C value of `kRe2`. -/
def kRe2 : Int := 6

/-- The concrete engine classes the `switch` of
`AsciiSearchAlgorithm_Create` (lines 104-129) can instantiate. -/
inductive Engine where
  | bndm32CaseSensitive
  | bndm32CaseInsensitive
  | bndm64CaseSensitive
  | bndm64CaseInsensitive
  | boyerMoore
  | strStr
  | regex
  | re2
  deriving DecidableEq, Repr

/-- Record `AsciiSearchBase::SearchCreateResult`.  Modelled from the spec:
the class lives in a header that is not part of this source file; per the
spec it is "a result record carrying either success or an error code +
human-readable message", default-constructed as success (`HResult = S_OK`,
empty message) and written by `SetError` with a code and a message. -/
structure SearchCreateResult where
  hresult : Int
  errorMessage : String
  deriving DecidableEq, Repr

/-- The COM error code `E_OUTOFMEMORY` (`0x8007000E` as a signed 32-bit
value). -/
def E_OUTOFMEMORY : Int := -2147024882

/-- The COM `FAILED` macro: an `HRESULT` denotes failure iff it is
negative. -/
def FAILED (hr : Int) : Bool := hr < 0

/-- The `switch (kind)` statement (lines 104-129): which engine object is
allocated for a given kind value and options; `none` when no `case` matches
and `result` stays `NULL`.  The `options & kMatchCase` test is the Bool
`matchCase`. -/
def createEngine (kind : Int) (matchCase : Bool) : Option Engine :=
  if kind = kBndm32 then
    some (if matchCase then .bndm32CaseSensitive else .bndm32CaseInsensitive)
  else if kind = kBndm64 then
    some (if matchCase then .bndm64CaseSensitive else .bndm64CaseInsensitive)
  else if kind = kBoyerMoore then some .boyerMoore
  else if kind = kStrStr then some .strStr
  else if kind = kRegex then some .regex
  else if kind = kRe2 then some .re2
  else none

/-- Observable outcome of `AsciiSearchAlgorithm_Create`: the returned
instance (`none` = `NULL`), the `SearchCreateResult` written through the out
parameter, and the engine freed by `delete` on the preprocessing-failure
path (line 138). -/
structure CreateOutcome where
  returned : Option Engine
  searchCreateResult : SearchCreateResult
  deletedEngine : Option Engine
  deriving DecidableEq, Repr

/-- The engine object the `switch` constructed during a call, whether it was
returned or deleted again. -/
def CreateOutcome.constructed (o : CreateOutcome) : Option Engine :=
  match o.returned with
  | some e => some e
  | none => o.deletedEngine

/-- Export `AsciiSearchAlgorithm_Create` (lines 95-143).  The engines'
`PreProcess` implementations live in the `search_*.h` headers, which are not
part of this source file; the parameter `preProcess` abstracts them as the
`SearchCreateResult` a given engine writes for a given pattern and options
(starting from the default-constructed record of line 101). -/
def AsciiSearchAlgorithm_Create
    (preProcess : Engine → List Nat → Bool → SearchCreateResult)
    (kind : Int) (pattern : List Nat) (matchCase : Bool) : CreateOutcome :=
  match createEngine kind matchCase with
  | none => ⟨none, ⟨E_OUTOFMEMORY, "Out of memory"⟩, none⟩
  | some engine =>
    let r := preProcess engine pattern matchCase
    if FAILED r.hresult then ⟨none, r, some engine⟩
    else ⟨some engine, r, none⟩

/-- A preprocessing behavior that always succeeds, used to instantiate
`preProcess` in concrete runs. -/
def okPreProcess : Engine → List Nat → Bool → SearchCreateResult :=
  fun _ _ _ => ⟨0, ""⟩

/-- Spec-side: how one pattern character must relate to one text character;
with the match-case option they must be equal, without it their images under
the uppercase map must be equal. -/
def charMatch (up : Nat → Nat) (matchCase : Bool) (a b : Nat) : Prop :=
  if matchCase then a = b else up a = up b

/-- Spec-side: the pattern occurs in the text at offset `i` (it fits and
every character pair matches). -/
def SpecOccursAt (up : Nat → Nat) (matchCase : Bool)
    (text pattern : List Nat) (i : Nat) : Prop :=
  i + pattern.length ≤ text.length ∧
  ∀ j, j < pattern.length →
    charMatch up matchCase (text.getD (i + j) 0) (pattern.getD j 0)

/-! ## Theorems -/

theorem Text_HasUtf8Bom_iff (text : List Nat) :
    Text_HasUtf8Bom text = true ↔ SpecStartsWithBom text := by
  unfold Text_HasUtf8Bom SpecStartsWithBom
  match text with
  | [] => simp
  | [b0] => simp
  | [b0, b1] => simp
  | b0 :: b1 :: b2 :: rest =>
    simp [List.take, Nat.succ_le_succ, Nat.succ_le_of_lt, and_assoc]

theorem Text_IsAscii_iff (text : List Nat) :
    Text_IsAscii text = true ↔ SpecAllAscii text := by
  unfold SpecAllAscii
  induction text with
  | nil => simp [Text_IsAscii]
  | cons b rest ih =>
    simp [Text_IsAscii, ih]

theorem not_specAllAscii_iff (l : List Nat) :
    ¬ SpecAllAscii l ↔ ∃ b ∈ l, 0x80 ≤ b := by
  unfold SpecAllAscii
  constructor
  · intro h
    push_neg at h
    obtain ⟨b, hb, hgt⟩ := h
    exact ⟨b, hb, by omega⟩
  · rintro ⟨b, hb, hge⟩ h
    have := h b hb
    omega

/-- C4: `Text_GetKind` returns `AsciiWithUtf8Bom` iff the buffer starts with
the 3-byte prefix `0xEF 0xBB 0xBF` and every remaining byte is at most
`0x7F`; `Utf8WithBom` iff the prefix is present and some remaining byte is
at least `0x80`; `Ascii` iff the prefix is absent and every byte is at most
`0x7F` (in particular for the empty buffer); and `Unknown` iff the prefix is
absent and some byte is at least `0x80`. -/
theorem C4_text_getKind_classification (text : List Nat) :
    (Text_GetKind text = .AsciiWithUtf8Bom ↔
       SpecStartsWithBom text ∧ SpecAllAscii (text.drop 3)) ∧
    (Text_GetKind text = .Utf8WithBom ↔
       SpecStartsWithBom text ∧ ∃ b ∈ text.drop 3, 0x80 ≤ b) ∧
    (Text_GetKind text = .Ascii ↔
       ¬ SpecStartsWithBom text ∧ SpecAllAscii text) ∧
    (Text_GetKind text = .Unknown ↔
       ¬ SpecStartsWithBom text ∧ ∃ b ∈ text, 0x80 ≤ b) ∧
    Text_GetKind [] = .Ascii := by
  have main : (Text_GetKind text = .AsciiWithUtf8Bom ↔
       SpecStartsWithBom text ∧ SpecAllAscii (text.drop 3)) ∧
      (Text_GetKind text = .Utf8WithBom ↔
       SpecStartsWithBom text ∧ ∃ b ∈ text.drop 3, 0x80 ≤ b) ∧
      (Text_GetKind text = .Ascii ↔
       ¬ SpecStartsWithBom text ∧ SpecAllAscii text) ∧
      (Text_GetKind text = .Unknown ↔
       ¬ SpecStartsWithBom text ∧ ∃ b ∈ text, 0x80 ≤ b) := by
    have h1 := Text_HasUtf8Bom_iff text
    have h2 := Text_IsAscii_iff (text.drop 3)
    have h3 := Text_IsAscii_iff text
    have h4 := not_specAllAscii_iff (text.drop 3)
    have h5 := not_specAllAscii_iff text
    unfold Text_GetKind
    by_cases hb : Text_HasUtf8Bom text = true <;>
      by_cases ha : Text_IsAscii (text.drop 3) = true <;>
        by_cases hc : Text_IsAscii text = true <;>
          simp_all
  exact ⟨main.1, main.2.1, main.2.2.1, main.2.2.2, by decide⟩

/-- C9: a buffer of length less than 3 is never classified as a BOM-bearing
kind, and the proper BOM prefix `0xEF 0xBB` is classified `Unknown`. -/
theorem C9_short_buffer_not_bom (text : List Nat) (h : text.length < 3) :
    (Text_GetKind text = .Ascii ∨ Text_GetKind text = .Unknown) ∧
    Text_GetKind [0xEF, 0xBB] = .Unknown := by
  refine ⟨?_, by decide⟩
  have hb : Text_HasUtf8Bom text = false := by
    rcases text with _ | ⟨a, _ | ⟨b, _ | ⟨c, rest⟩⟩⟩
    · rfl
    · rfl
    · rfl
    · simp only [List.length_cons] at h
      omega
  unfold Text_GetKind
  by_cases hc : Text_IsAscii text = true <;> simp [hb, hc]

/-- Witness for C9 at the concrete buffer `[0xEF]`. -/
theorem C9_witness :
    (Text_GetKind [0xEF] = .Ascii ∨ Text_GetKind [0xEF] = .Unknown) ∧
    Text_GetKind [0xEF, 0xBB] = .Unknown :=
  C9_short_buffer_not_bom [0xEF] (by decide)

theorem memcmpEqual_iff : ∀ a b : List Nat, memcmpEqual a b = true ↔ a = b := by
  intro a
  induction a with
  | nil => intro b; cases b <;> simp [memcmpEqual]
  | cons x xs ih =>
    intro b
    cases b with
    | nil => simp [memcmpEqual]
    | cons y ys => simp [memcmpEqual, ih]

theorem ascii_compare_eq_iff (a b : List Nat) :
    Ascii_Compare a b = true ↔ a = b := by
  unfold Ascii_Compare
  by_cases h : a.length = b.length
  · rw [if_neg (fun hne => hne h)]
    exact memcmpEqual_iff a b
  · rw [if_pos h]
    simp only [Bool.false_eq_true, false_iff]
    intro hab
    exact h (by rw [hab])

/-- C6: `Ascii_Compare` returns true iff the two buffers have the same
length and are byte-for-byte identical. -/
theorem C6_ascii_compare_iff (a b : List Nat) :
    Ascii_Compare a b = true ↔
      (a.length = b.length ∧ ∀ i, i < a.length → a.getD i 0 = b.getD i 0) := by
  rw [ascii_compare_eq_iff]
  constructor
  · rintro rfl
    exact ⟨rfl, fun i _ => rfl⟩
  · rintro ⟨hlen, hpt⟩
    apply List.ext_getElem hlen
    intro i h1 h2
    have hi := hpt i h1
    rwa [List.getD_eq_getElem a 0 h1, List.getD_eq_getElem b 0 h2] at hi

/-- C10: with the empty pattern, `Utf16_Search` returns a match at offset 0
exactly when the text is non-empty, and not-found on the empty text. -/
theorem C10_utf16_search_empty_pattern (up : Nat → Nat) (matchCase : Bool)
    (text : List Nat) :
    Utf16_Search up matchCase text [] = if text = [] then none else some 0 := by
  cases text <;> cases matchCase <;> simp [Utf16_Search, stdSearch, matchesAt]

theorem create_constructed
    (preProcess : Engine → List Nat → Bool → SearchCreateResult)
    (kind : Int) (pattern : List Nat) (matchCase : Bool) (e : Engine)
    (h : createEngine kind matchCase = some e) :
    (AsciiSearchAlgorithm_Create preProcess kind pattern matchCase).constructed
      = some e := by
  unfold AsciiSearchAlgorithm_Create
  rw [h]
  dsimp only
  split <;> rfl

/-- C3 counterexample: the narrow bit-parallel engine is instantiated for a
pattern of length 50 (which exceeds 32 and lies in the wide range 33-64)
when the caller passes `kBndm32`; the same kind with a length-1 pattern
gives the same engine, and `kBoyerMoore` with the length-50 pattern gives
Boyer-Moore: the selection follows the caller's kind, not the measured
pattern length. -/
theorem C3_counterexample :
    32 < (List.replicate 50 97).length ∧
    (AsciiSearchAlgorithm_Create okPreProcess kBndm32
        (List.replicate 50 97) true).constructed
      = some Engine.bndm32CaseSensitive ∧
    (AsciiSearchAlgorithm_Create okPreProcess kBndm32 [97] true).constructed
      = some Engine.bndm32CaseSensitive ∧
    (AsciiSearchAlgorithm_Create okPreProcess kBoyerMoore
        (List.replicate 50 97) true).constructed
      = some Engine.boyerMoore := by
  decide

/-- C3 (amended): which engine variant `AsciiSearchAlgorithm_Create`
instantiates is decided by the kind value the caller passed (together with
the match-case option), never by the measured pattern length: for every
pattern whatsoever, `kBndm32` yields the narrow bit-parallel engine,
`kBndm64` the wide one, and `kBoyerMoore` the general-sublinear one. -/
theorem C3_dispatch_by_kind
    (preProcess : Engine → List Nat → Bool → SearchCreateResult)
    (pattern : List Nat) (matchCase : Bool) :
    (AsciiSearchAlgorithm_Create preProcess kBndm32 pattern matchCase).constructed
      = some (if matchCase then Engine.bndm32CaseSensitive
              else Engine.bndm32CaseInsensitive) ∧
    (AsciiSearchAlgorithm_Create preProcess kBndm64 pattern matchCase).constructed
      = some (if matchCase then Engine.bndm64CaseSensitive
              else Engine.bndm64CaseInsensitive) ∧
    (AsciiSearchAlgorithm_Create preProcess kBoyerMoore pattern matchCase).constructed
      = some Engine.boyerMoore := by
  cases matchCase <;>
    exact ⟨create_constructed _ _ _ _ _ (by decide),
           create_constructed _ _ _ _ _ (by decide),
           create_constructed _ _ _ _ _ (by decide)⟩

theorem create_eq_oom
    (preProcess : Engine → List Nat → Bool → SearchCreateResult)
    (kind : Int) (pattern : List Nat) (matchCase : Bool)
    (h : createEngine kind matchCase = none) :
    AsciiSearchAlgorithm_Create preProcess kind pattern matchCase =
      ⟨none, ⟨E_OUTOFMEMORY, "Out of memory"⟩, none⟩ := by
  simp only [AsciiSearchAlgorithm_Create, h]

theorem create_eq_preprocess_failed
    (preProcess : Engine → List Nat → Bool → SearchCreateResult)
    (kind : Int) (pattern : List Nat) (matchCase : Bool) (e : Engine)
    (h : createEngine kind matchCase = some e)
    (hf : FAILED (preProcess e pattern matchCase).hresult = true) :
    AsciiSearchAlgorithm_Create preProcess kind pattern matchCase =
      ⟨none, preProcess e pattern matchCase, some e⟩ := by
  simp only [AsciiSearchAlgorithm_Create, h, hf, if_true]

theorem create_eq_preprocess_ok
    (preProcess : Engine → List Nat → Bool → SearchCreateResult)
    (kind : Int) (pattern : List Nat) (matchCase : Bool) (e : Engine)
    (h : createEngine kind matchCase = some e)
    (hf : FAILED (preProcess e pattern matchCase).hresult = false) :
    AsciiSearchAlgorithm_Create preProcess kind pattern matchCase =
      ⟨some e, preProcess e pattern matchCase, none⟩ := by
  simp only [AsciiSearchAlgorithm_Create, h, hf, Bool.false_eq_true, if_false]

/-- C7: `AsciiSearchAlgorithm_Create` either returns an instance and the
result record denotes success, or returns `NULL` and the record carries a
failing error code and a message; when preprocessing fails the constructed
engine is deleted and not returned.  The hypothesis on `preProcess` is
modelled from the spec: a failing engine "yields a populated error
record". -/
theorem C7_create_error_dichotomy
    (preProcess : Engine → List Nat → Bool → SearchCreateResult)
    (hmsg : ∀ e p mc, FAILED (preProcess e p mc).hresult = true →
        (preProcess e p mc).errorMessage ≠ "")
    (kind : Int) (pattern : List Nat) (matchCase : Bool) :
    (((∃ e, (AsciiSearchAlgorithm_Create preProcess kind pattern matchCase).returned
          = some e) ∧
      FAILED (AsciiSearchAlgorithm_Create preProcess kind pattern
          matchCase).searchCreateResult.hresult = false) ∨
     ((AsciiSearchAlgorithm_Create preProcess kind pattern matchCase).returned
          = none ∧
      FAILED (AsciiSearchAlgorithm_Create preProcess kind pattern
          matchCase).searchCreateResult.hresult = true ∧
      (AsciiSearchAlgorithm_Create preProcess kind pattern
          matchCase).searchCreateResult.errorMessage ≠ "")) ∧
    (∀ e, createEngine kind matchCase = some e →
      FAILED (preProcess e pattern matchCase).hresult = true →
      (AsciiSearchAlgorithm_Create preProcess kind pattern matchCase).returned
          = none ∧
      (AsciiSearchAlgorithm_Create preProcess kind pattern matchCase).deletedEngine
          = some e) := by
  cases hEng : createEngine kind matchCase with
  | none =>
    rw [create_eq_oom preProcess kind pattern matchCase hEng]
    refine ⟨Or.inr ⟨rfl, by decide, by decide⟩, ?_⟩
    intro e he
    cases he
  | some e =>
    by_cases hf : FAILED (preProcess e pattern matchCase).hresult = true
    · rw [create_eq_preprocess_failed preProcess kind pattern matchCase e hEng hf]
      refine ⟨Or.inr ⟨rfl, hf, hmsg e pattern matchCase hf⟩, ?_⟩
      intro e' he' _
      cases he'
      exact ⟨rfl, rfl⟩
    · have hf' : FAILED (preProcess e pattern matchCase).hresult = false := by
        cases hv : FAILED (preProcess e pattern matchCase).hresult
        · rfl
        · exact absurd hv hf
      rw [create_eq_preprocess_ok preProcess kind pattern matchCase e hEng hf']
      refine ⟨Or.inl ⟨⟨e, rfl⟩, hf'⟩, ?_⟩
      intro e' he' hfail
      cases he'
      exact absurd hfail hf

/-- Witness for C7 with an always-succeeding preprocessing step at
`kind = kBndm32`, pattern `"a"`, match-case set. -/
theorem C7_witness :
    (((∃ e, (AsciiSearchAlgorithm_Create okPreProcess 2 [97] true).returned
          = some e) ∧
      FAILED (AsciiSearchAlgorithm_Create okPreProcess 2 [97]
          true).searchCreateResult.hresult = false) ∨
     ((AsciiSearchAlgorithm_Create okPreProcess 2 [97] true).returned = none ∧
      FAILED (AsciiSearchAlgorithm_Create okPreProcess 2 [97]
          true).searchCreateResult.hresult = true ∧
      (AsciiSearchAlgorithm_Create okPreProcess 2 [97]
          true).searchCreateResult.errorMessage ≠ "")) ∧
    (∀ e, createEngine 2 true = some e →
      FAILED (okPreProcess e [97] true).hresult = true →
      (AsciiSearchAlgorithm_Create okPreProcess 2 [97] true).returned = none ∧
      (AsciiSearchAlgorithm_Create okPreProcess 2 [97] true).deletedEngine
          = some e) :=
  C7_create_error_dichotomy okPreProcess
    (fun e p mc h => absurd h (by simp [okPreProcess, FAILED])) 2 [97] true

/-- C8: for every kind value outside 1..6 the `switch` falls through,
`result` stays `NULL`, and the call returns `NULL` with the error record set
to `E_OUTOFMEMORY` / "Out of memory", whatever the pattern and options. -/
theorem C8_unknown_kind_out_of_memory
    (preProcess : Engine → List Nat → Bool → SearchCreateResult)
    (kind : Int) (pattern : List Nat) (matchCase : Bool)
    (h : kind < 1 ∨ 6 < kind) :
    AsciiSearchAlgorithm_Create preProcess kind pattern matchCase =
      ⟨none, ⟨E_OUTOFMEMORY, "Out of memory"⟩, none⟩ := by
  have h1 : kind ≠ 1 := by rcases h with h | h <;> omega
  have h2 : kind ≠ 2 := by rcases h with h | h <;> omega
  have h3 : kind ≠ 3 := by rcases h with h | h <;> omega
  have h4 : kind ≠ 4 := by rcases h with h | h <;> omega
  have h5 : kind ≠ 5 := by rcases h with h | h <;> omega
  have h6 : kind ≠ 6 := by rcases h with h | h <;> omega
  have hEng : createEngine kind matchCase = none := by
    simp [createEngine, kStrStr, kBndm32, kBndm64, kBoyerMoore, kRegex, kRe2,
      h1, h2, h3, h4, h5, h6]
  unfold AsciiSearchAlgorithm_Create
  rw [hEng]

/-- Witness for C8 at the concrete kind value 0. -/
theorem C8_witness :
    AsciiSearchAlgorithm_Create okPreProcess 0 [] false =
      ⟨none, ⟨E_OUTOFMEMORY, "Out of memory"⟩, none⟩ :=
  C8_unknown_kind_out_of_memory okPreProcess 0 [] false (Or.inl (by decide))

/-- C2 failing input: with `text = "abc"` (length 3), `position = 5` and
`maxOffset = 1`, the backward scan dereferences `text[5]`, outside the
buffer, so the out-of-range branch of the Option-indexed embedding is
reached: `position` is not clamped to the buffer bounds (on this input the
C code also violates its own `assert(start <= high)`, since the backward
scan leaves `start` at 4 or 5 while `high = 3`).  A negative position makes
the forward scan read `text[-1]` likewise. -/
theorem C2_position_not_clamped :
    GetLineExtentFromPosition [97, 98, 99] 5 1 = none ∧
    Ascii_GetLineExtentFromPosition [97, 98, 99] 5 1 = none ∧
    Utf16_GetLineExtentFromPosition [97, 98, 99] (-1) 5 = none := by
  decide

/-- C1 counterexample: on the buffer `"aaa\nbbb\nccc"` at position 5 with a
generous radius, both exported variants return `(3, 4)` - the region
`"\nbbb"` whose start is the preceding newline itself - and not `(4, 3)`,
the region `"bbb"` that the claim describes. -/
theorem C1_counterexample :
    Ascii_GetLineExtentFromPosition
        [97, 97, 97, 10, 98, 98, 98, 10, 99, 99, 99] 5 100 = some (3, 4) ∧
    Utf16_GetLineExtentFromPosition
        [97, 97, 97, 10, 98, 98, 98, 10, 99, 99, 99] 5 100 = some (3, 4) ∧
    ¬ Ascii_GetLineExtentFromPosition
        [97, 97, 97, 10, 98, 98, 98, 10, 99, 99, 99] 5 100 = some (4, 3) := by
  decide

theorem scanBackAux_stops (text : List Nat) (low k : Int) :
    ∀ (fuel : Nat) (pos : Int), low ≤ k → k ≤ pos → pos - low = fuel →
      (∀ i : Int, k < i → i ≤ pos → ∃ c, readChar text i = some c ∧ c ≠ 10) →
      readChar text k = some 10 →
      scanBackAux text fuel pos = some k := by
  intro fuel
  induction fuel with
  | zero =>
    intro pos h1 h2 h3 _ _
    have hkp : k = pos := by omega
    subst hkp
    rfl
  | succ fuel ih =>
    intro pos h1 h2 h3 hchars hnl
    by_cases hkp : k = pos
    · subst hkp
      simp only [scanBackAux, hnl]
      rw [if_pos trivial]
    · obtain ⟨c, hc, hc10⟩ := hchars pos (by omega) (le_refl pos)
      simp only [scanBackAux, hc]
      rw [if_neg hc10]
      exact ih (pos - 1) h1 (by omega) (by omega)
        (fun i hi1 hi2 => hchars i hi1 (by omega)) hnl

theorem scanBack_stops (text : List Nat) (low k pos : Int)
    (h1 : low ≤ k) (h2 : k ≤ pos)
    (hchars : ∀ i : Int, k < i → i ≤ pos → ∃ c, readChar text i = some c ∧ c ≠ 10)
    (hnl : readChar text k = some 10) :
    scanBack text low pos = some k := by
  unfold scanBack
  by_cases hle : pos ≤ low
  · rw [if_pos hle]
    have hkp : k = pos := by omega
    rw [hkp]
  · rw [if_neg hle]
    exact scanBackAux_stops text low k ((pos - low).toNat) pos h1 h2 (by omega)
      hchars hnl

theorem scanFwdAux_stops (text : List Nat) (high k : Int) :
    ∀ (fuel : Nat) (e : Int), e ≤ k → k < high → high - e = fuel →
      (∀ i : Int, e ≤ i → i < k → ∃ c, readChar text i = some c ∧ c ≠ 10) →
      readChar text k = some 10 →
      scanFwdAux text fuel e = some k := by
  intro fuel
  induction fuel with
  | zero =>
    intro e h1 h2 h3 _ _
    exfalso
    omega
  | succ fuel ih =>
    intro e h1 h2 h3 hchars hnl
    by_cases hek : e = k
    · subst hek
      simp only [scanFwdAux, hnl]
      rw [if_pos trivial]
    · obtain ⟨c, hc, hc10⟩ := hchars e (le_refl e) (by omega)
      simp only [scanFwdAux, hc]
      rw [if_neg hc10]
      exact ih (e + 1) (by omega) h2 (by omega)
        (fun i hi1 hi2 => hchars i (by omega) hi2) hnl

theorem scanFwd_stops (text : List Nat) (high k e : Int)
    (h1 : e ≤ k) (h2 : k < high)
    (hchars : ∀ i : Int, e ≤ i → i < k → ∃ c, readChar text i = some c ∧ c ≠ 10)
    (hnl : readChar text k = some 10) :
    scanFwd text high e = some k := by
  unfold scanFwd
  rw [if_neg (by omega)]
  exact scanFwdAux_stops text high k ((high - e).toNat) e h1 h2 (by omega)
    hchars hnl

theorem readChar_first_newline (A B C : List Nat) :
    readChar (A ++ [10] ++ B ++ [10] ++ C) ((A.length : Int)) = some 10 := by
  unfold readChar
  rw [if_neg (by omega)]
  have hn : ((A.length : Int)).toNat = A.length := by omega
  rw [hn]
  rw [List.getElem?_append, if_pos (by
    simp only [List.length_append, List.length_cons, List.length_nil]; omega)]
  rw [List.getElem?_append, if_pos (by
    simp only [List.length_append, List.length_cons, List.length_nil]; omega)]
  rw [List.getElem?_append, if_pos (by
    simp only [List.length_append, List.length_cons, List.length_nil]; omega)]
  rw [List.getElem?_append_right (le_refl A.length)]
  simp

theorem readChar_second_newline (A B C : List Nat) :
    readChar (A ++ [10] ++ B ++ [10] ++ C)
      ((A.length : Int) + (B.length : Int) + 1) = some 10 := by
  unfold readChar
  rw [if_neg (by omega)]
  have hn : ((A.length : Int) + (B.length : Int) + 1).toNat
      = A.length + B.length + 1 := by omega
  rw [hn]
  rw [List.getElem?_append, if_pos (by
    simp only [List.length_append, List.length_cons, List.length_nil]; omega)]
  rw [List.getElem?_append_right (by
    simp only [List.length_append, List.length_cons, List.length_nil]; omega)]
  have h0 : A.length + B.length + 1 - (A ++ [10] ++ B).length = 0 := by
    simp only [List.length_append, List.length_cons, List.length_nil]; omega
  rw [h0]
  simp

theorem readChar_middle (A B C : List Nat) (i : Int)
    (h1 : (A.length : Int) + 1 ≤ i) (h2 : i ≤ (A.length : Int) + B.length) :
    ∃ c, readChar (A ++ [10] ++ B ++ [10] ++ C) i = some c ∧ c ∈ B := by
  unfold readChar
  rw [if_neg (by omega)]
  rw [List.getElem?_append, if_pos (by
    simp only [List.length_append, List.length_cons, List.length_nil]; omega)]
  rw [List.getElem?_append, if_pos (by
    simp only [List.length_append, List.length_cons, List.length_nil]; omega)]
  rw [List.getElem?_append_right (by
    simp only [List.length_append, List.length_cons, List.length_nil]; omega)]
  have hm : i.toNat - (A ++ [10]).length < B.length := by
    simp only [List.length_append, List.length_cons, List.length_nil]; omega
  rw [List.getElem?_eq_getElem hm]
  exact ⟨_, rfl, List.getElem_mem hm⟩

/-- C1 (amended): for every buffer of the shape `A ++ "\n" ++ B ++ "\n" ++ C`
with no newline inside `B`, every position strictly inside the middle line
`B`, and every radius reaching both neighboring newlines, both exported
variants return `lineStartPosition` equal to the offset of the preceding
newline itself (one less than the first character of the line) and `lineLen`
equal to the line length plus one: the reported region includes the leading
newline and excludes the trailing one (for `"aaa\nbbb\nccc"` that region is
`"\nbbb"`, not `"bbb"`). -/
theorem C1_line_extent_amended (A B C : List Nat)
    (hB : ∀ b ∈ B, b ≠ 10)
    (pos mo : Int)
    (hpos1 : (A.length : Int) + 1 ≤ pos)
    (hpos2 : pos ≤ (A.length : Int) + (B.length : Int))
    (hmo1 : pos - mo ≤ (A.length : Int))
    (hmo2 : (A.length : Int) + (B.length : Int) + 2 ≤ pos + mo) :
    Ascii_GetLineExtentFromPosition (A ++ [10] ++ B ++ [10] ++ C) pos mo
      = some ((A.length : Int), (B.length : Int) + 1) ∧
    Utf16_GetLineExtentFromPosition (A ++ [10] ++ B ++ [10] ++ C) pos mo
      = some ((A.length : Int), (B.length : Int) + 1) := by
  have hText : (((A ++ [10] ++ B ++ [10] ++ C).length : Nat) : Int)
      = (A.length : Int) + (B.length : Int) + (C.length : Int) + 2 := by
    simp [List.length_append]
    ring
  have hmid : ∀ i : Int, (A.length : Int) + 1 ≤ i →
      i ≤ (A.length : Int) + (B.length : Int) →
      ∃ c, readChar (A ++ [10] ++ B ++ [10] ++ C) i = some c ∧ c ≠ 10 := by
    intro i hi1 hi2
    obtain ⟨c, hc, hcB⟩ := readChar_middle A B C i hi1 hi2
    exact ⟨c, hc, hB c hcB⟩
  have hback : scanBack (A ++ [10] ++ B ++ [10] ++ C) (max 0 (pos - mo)) pos
      = some ((A.length : Int)) := by
    apply scanBack_stops
    · omega
    · omega
    · intro i hi1 hi2
      exact hmid i (by omega) (by omega)
    · exact readChar_first_newline A B C
  have hfwd : scanFwd (A ++ [10] ++ B ++ [10] ++ C)
      (min (((A ++ [10] ++ B ++ [10] ++ C).length : Nat) : Int) (pos + mo)) pos
      = some ((A.length : Int) + (B.length : Int) + 1) := by
    apply scanFwd_stops
    · omega
    · omega
    · intro i hi1 hi2
      exact hmid i (by omega) (by omega)
    · exact readChar_second_newline A B C
  have hmain : GetLineExtentFromPosition (A ++ [10] ++ B ++ [10] ++ C) pos mo
      = some ((A.length : Int), (B.length : Int) + 1) := by
    simp only [GetLineExtentFromPosition]
    rw [hback, hfwd]
    dsimp only
    have harith : (A.length : Int) + (B.length : Int) + 1 - (A.length : Int)
        = (B.length : Int) + 1 := by ring
    rw [harith]
  exact ⟨hmain, hmain⟩

/-- Witness for C1 (amended) at the concrete buffer `"aaa\nbbb\nccc"`,
position 5, radius 100. -/
theorem C1_amended_witness :
    Ascii_GetLineExtentFromPosition
        ([97, 97, 97] ++ [10] ++ [98, 98, 98] ++ [10] ++ [99, 99, 99]) 5 100
      = some (3, 4) ∧
    Utf16_GetLineExtentFromPosition
        ([97, 97, 97] ++ [10] ++ [98, 98, 98] ++ [10] ++ [99, 99, 99]) 5 100
      = some (3, 4) := by
  have h := C1_line_extent_amended [97, 97, 97] [98, 98, 98] [99, 99, 99]
    (by decide) 5 100 (by decide) (by decide) (by decide) (by decide)
  exact h

theorem getD_drop (l : List Nat) (i j : Nat) (d : Nat) :
    (l.drop i).getD j d = l.getD (i + j) d := by
  rw [List.getD_eq_getElem?_getD, List.getD_eq_getElem?_getD, List.getElem?_drop]

theorem matchesAt_iff (eq : Nat → Nat → Bool) :
    ∀ (pattern text : List Nat),
      matchesAt eq text pattern = true ↔
        (pattern.length ≤ text.length ∧
         ∀ j, j < pattern.length → eq (text.getD j 0) (pattern.getD j 0) = true) := by
  intro pattern
  induction pattern with
  | nil =>
    intro text
    simp [matchesAt]
  | cons p ps ih =>
    intro text
    cases text with
    | nil => simp [matchesAt]
    | cons t ts =>
      simp only [matchesAt, Bool.and_eq_true, ih ts, List.length_cons]
      constructor
      · rintro ⟨hept, hlen, hrest⟩
        refine ⟨by omega, ?_⟩
        intro j hj
        cases j with
        | zero =>
          rw [List.getD_cons_zero, List.getD_cons_zero]
          exact hept
        | succ j =>
          rw [List.getD_cons_succ, List.getD_cons_succ]
          exact hrest j (by omega)
      · rintro ⟨hlen, hall⟩
        refine ⟨?_, by omega, ?_⟩
        · have h0 := hall 0 (by omega)
          rw [List.getD_cons_zero, List.getD_cons_zero] at h0
          exact h0
        · intro j hj
          have hs := hall (j + 1) (by omega)
          rwa [List.getD_cons_succ, List.getD_cons_succ] at hs

theorem stdSearch_spec (eq : Nat → Nat → Bool) (pattern : List Nat) :
    ∀ text : List Nat,
      stdSearch eq text pattern ≤ text.length ∧
      (∀ j, j < stdSearch eq text pattern →
        matchesAt eq (text.drop j) pattern = false) ∧
      (stdSearch eq text pattern < text.length →
        matchesAt eq (text.drop (stdSearch eq text pattern)) pattern = true) := by
  intro text
  induction text with
  | nil =>
    refine ⟨Nat.le_refl 0, ?_, ?_⟩
    · intro j hj
      simp [stdSearch] at hj
    · intro h
      simp [stdSearch] at h
  | cons t ts ih =>
    obtain ⟨ih1, ih2, ih3⟩ := ih
    by_cases h : matchesAt eq (t :: ts) pattern = true
    · simp only [stdSearch, if_pos h]
      refine ⟨Nat.zero_le _, ?_, ?_⟩
      · intro j hj
        omega
      · intro _
        rw [List.drop_zero]
        exact h
    · have hfalse : matchesAt eq (t :: ts) pattern = false := by
        cases hv : matchesAt eq (t :: ts) pattern
        · rfl
        · exact absurd hv h
      simp only [stdSearch, if_neg h, List.length_cons]
      refine ⟨by omega, ?_, ?_⟩
      · intro j hj
        cases j with
        | zero =>
          rw [List.drop_zero]
          exact hfalse
        | succ j =>
          rw [List.drop_succ_cons]
          exact ih2 j (by omega)
      · intro hlt
        have hcomm : 1 + stdSearch eq ts pattern = stdSearch eq ts pattern + 1 :=
          Nat.add_comm 1 _
        rw [hcomm, List.drop_succ_cons]
        exact ih3 (by omega)

theorem matchesAt_drop_iff (up : Nat → Nat) (mc : Bool) (eq : Nat → Nat → Bool)
    (hcompat : ∀ a b, eq a b = true ↔ charMatch up mc a b)
    (text pattern : List Nat) (hp : pattern ≠ []) (i : Nat) :
    matchesAt eq (text.drop i) pattern = true ↔
      SpecOccursAt up mc text pattern i := by
  have hplen : 1 ≤ pattern.length := by
    cases pattern with
    | nil => exact absurd rfl hp
    | cons q qs => simp
  rw [matchesAt_iff]
  unfold SpecOccursAt
  constructor
  · rintro ⟨hlen, hall⟩
    rw [List.length_drop] at hlen
    refine ⟨by omega, ?_⟩
    intro j hj
    have hjj := hall j hj
    rw [getD_drop] at hjj
    exact (hcompat _ _).mp hjj
  · rintro ⟨hlen, hall⟩
    constructor
    · rw [List.length_drop]
      omega
    · intro j hj
      rw [getD_drop]
      exact (hcompat _ _).mpr (hall j hj)

theorem stdSearch_leftmost (up : Nat → Nat) (mc : Bool) (eq : Nat → Nat → Bool)
    (hcompat : ∀ a b, eq a b = true ↔ charMatch up mc a b)
    (text pattern : List Nat) (hp : pattern ≠ []) :
    (∀ i, (if stdSearch eq text pattern = text.length then (none : Option Nat)
           else some (stdSearch eq text pattern)) = some i →
       SpecOccursAt up mc text pattern i ∧
       ∀ j, j < i → ¬ SpecOccursAt up mc text pattern j) ∧
    ((if stdSearch eq text pattern = text.length then (none : Option Nat)
      else some (stdSearch eq text pattern)) = none ↔
       ∀ i, ¬ SpecOccursAt up mc text pattern i) := by
  obtain ⟨hle, hbefore, hat⟩ := stdSearch_spec eq pattern text
  have hocc := matchesAt_drop_iff up mc eq hcompat text pattern hp
  have hplen : 1 ≤ pattern.length := by
    cases pattern with
    | nil => exact absurd rfl hp
    | cons q qs => simp
  constructor
  · intro i hi
    by_cases hcase : stdSearch eq text pattern = text.length
    · rw [if_pos hcase] at hi
      cases hi
    · rw [if_neg hcase] at hi
      cases hi
      have hlt : stdSearch eq text pattern < text.length := by omega
      refine ⟨(hocc _).mp (hat hlt), ?_⟩
      intro j hj hoccj
      have hmt := (hocc j).mpr hoccj
      rw [hbefore j hj] at hmt
      cases hmt
  · constructor
    · intro hnone i hocci
      by_cases hcase : stdSearch eq text pattern = text.length
      · have hmt := (hocc i).mpr hocci
        have hilt : i < text.length := by
          have := hocci.1
          omega
        rw [hbefore i (by omega)] at hmt
        cases hmt
      · rw [if_neg hcase] at hnone
        cases hnone
    · intro hno
      by_cases hcase : stdSearch eq text pattern = text.length
      · rw [if_pos hcase]
      · exfalso
        have hlt : stdSearch eq text pattern < text.length := by omega
        exact hno _ ((hocc _).mp (hat hlt))

/-- C5: for every wide-character text and non-empty pattern, `Utf16_Search`
returns the offset of the leftmost occurrence of the pattern - where under
the match-case option characters must be equal and otherwise their images
under the locale uppercase map must be equal - and returns `none`
(`nullptr`) exactly when no occurrence exists. -/
theorem C5_utf16_search_leftmost (up : Nat → Nat) (matchCase : Bool)
    (text pattern : List Nat) (hp : pattern ≠ []) :
    (∀ i, Utf16_Search up matchCase text pattern = some i →
       SpecOccursAt up matchCase text pattern i ∧
       ∀ j, j < i → ¬ SpecOccursAt up matchCase text pattern j) ∧
    (Utf16_Search up matchCase text pattern = none ↔
       ∀ i, ¬ SpecOccursAt up matchCase text pattern i) := by
  cases matchCase with
  | false =>
    exact stdSearch_leftmost up false (char_equal_icase up)
      (fun a b => by simp [char_equal_icase, charMatch]) text pattern hp
  | true =>
    exact stdSearch_leftmost up true char_equal
      (fun a b => by simp [char_equal, charMatch]) text pattern hp

/-- Witness for C5: searching `[97, 98]` for the pattern `[98]`
case-sensitively, the match is at offset 1 and not at offset 0. -/
theorem C5_witness :
    SpecOccursAt id true [97, 98] [98] 1 ∧
    ¬ SpecOccursAt id true [97, 98] [98] 0 :=
  ⟨((C5_utf16_search_leftmost id true [97, 98] [98] (by decide)).1 1
      (by decide)).1,
   ((C5_utf16_search_leftmost id true [97, 98] [98] (by decide)).1 1
      (by decide)).2 0 (by decide)⟩

end VsChromiumNative
